import Mathlib

set_option maxRecDepth 4000

/-!
Verification of the JXA execution utilities of apple-notes-mcp
(`src/utils/jxa.ts`): the string escaper `escapeForJXA`, the executor
`executeJXA` with its timeout / error classification, and the Notes
script composer `buildNotesJXA`.

Strings are modelled as `List Char` (the sequence of code points of a
JavaScript string).  The process facility `execSync` is modelled as a
function parameter mapping the command string and the timeout to an
outcome: either the captured stdout, or a thrown value.  `executeJXA`
additionally returns the list of invocations it made of the facility
(the command string and the timeout passed), so that claims about the
facility never being called, or called with a particular command, can
be stated.
-/

/-- The single-quote character U+0027, written via its code point. -/
def squote : Char := Char.ofNat 39

/-- The characters removed by JavaScript `String.prototype.trim`:
ECMAScript WhiteSpace and LineTerminator code points. -/
def isJSWhitespace (c : Char) : Bool :=
  c == ' ' || c == '\t' || c == '\n' || c == '\r' ||
  c == Char.ofNat 0x0B || c == Char.ofNat 0x0C || c == Char.ofNat 0xA0 ||
  c == Char.ofNat 0x1680 ||
  (Nat.ble 0x2000 c.toNat && Nat.ble c.toNat 0x200A) ||
  c == Char.ofNat 0x2028 || c == Char.ofNat 0x2029 || c == Char.ofNat 0x202F ||
  c == Char.ofNat 0x205F || c == Char.ofNat 0x3000 || c == Char.ofNat 0xFEFF

/-- Model of JavaScript `s.trim()`: drop whitespace from both ends. -/
def trimList (s : List Char) : List Char :=
  ((s.dropWhile isJSWhitespace).reverse.dropWhile isJSWhitespace).reverse

/-- Model of JavaScript `s.replace(/c/g, rep)` for a single-character
pattern `c`: every occurrence of `c` is replaced by the list `rep`,
in one left-to-right pass. -/
def replaceCharAll (c : Char) (rep : List Char) : List Char → List Char
  | [] => []
  | x :: xs => (if x = c then rep else [x]) ++ replaceCharAll c rep xs

/-- The chain of the five global replacements performed by
`escapeForJXA` (src/utils/jxa.ts lines 50-55), in source order:
backslash first, then double quote, newline, carriage return, tab. -/
def escapeChain (str : List Char) : List Char :=
  replaceCharAll '\t' ['\\', 't']
    (replaceCharAll '\r' ['\\', 'r']
      (replaceCharAll '\n' ['\\', 'n']
        (replaceCharAll '"' ['\\', '"']
          (replaceCharAll '\\' ['\\', '\\'] str))))

/-- `escapeForJXA` from src/utils/jxa.ts lines 46-56: empty (falsy)
input yields the empty string, otherwise the five replacements are
applied in source order. -/
def escapeForJXA (str : List Char) : List Char :=
  if str = [] then [] else escapeChain str

/-- Per-character escape table: what the chain of five replacements
does to one input character. -/
def escChar (c : Char) : List Char :=
  if c = '\\' then ['\\', '\\']
  else if c = '"' then ['\\', '"']
  else if c = '\n' then ['\\', 'n']
  else if c = '\r' then ['\\', 'r']
  else if c = '\t' then ['\\', 't']
  else [c]

/-- Character-wise escaping: each input character is escaped
independently, exactly once. -/
def escapeList : List Char → List Char
  | [] => []
  | c :: cs => escChar c ++ escapeList cs

theorem replaceCharAll_append (c : Char) (rep xs ys : List Char) :
    replaceCharAll c rep (xs ++ ys) =
      replaceCharAll c rep xs ++ replaceCharAll c rep ys := by
  induction xs with
  | nil => rfl
  | cons x xs ih => simp [replaceCharAll, ih, List.append_assoc]

theorem escapeChain_append (xs ys : List Char) :
    escapeChain (xs ++ ys) = escapeChain xs ++ escapeChain ys := by
  simp [escapeChain, replaceCharAll_append]

theorem escapeChain_single (x : Char) : escapeChain [x] = escChar x := by
  by_cases h1 : x = '\\'
  · subst h1; rfl
  · by_cases h2 : x = '"'
    · subst h2; rfl
    · by_cases h3 : x = '\n'
      · subst h3; rfl
      · by_cases h4 : x = '\r'
        · subst h4; rfl
        · by_cases h5 : x = '\t'
          · subst h5; rfl
          · simp [escapeChain, replaceCharAll, escChar, h1, h2, h3, h4, h5]

theorem escapeChain_eq_escapeList (s : List Char) :
    escapeChain s = escapeList s := by
  induction s with
  | nil => rfl
  | cons x xs ih =>
    have h : x :: xs = [x] ++ xs := rfl
    rw [h, escapeChain_append, escapeChain_single, ih]
    rfl

theorem escapeForJXA_eq_escapeList (s : List Char) :
    escapeForJXA s = escapeList s := by
  cases s with
  | nil => rfl
  | cons x xs =>
    simp only [escapeForJXA, if_neg (List.cons_ne_nil x xs)]
    exact escapeChain_eq_escapeList (x :: xs)

/-- Decoding table of the JavaScript double-quoted string-literal
grammar for a character following a backslash: the five escapes the
escaper can produce map back to their source characters; any other
escaped character denotes itself (JS NonEscapeCharacter). -/
def unescTable (d : Char) : Char :=
  if d = '\\' then '\\'
  else if d = '"' then '"'
  else if d = 'n' then '\n'
  else if d = 'r' then '\r'
  else if d = 't' then '\t'
  else d

/-- Decoder for the body of a JavaScript double-quoted string literal,
interpreting the escape sequences of the grammar named by the claim:
a backslash followed by a character decodes via `unescTable`; every
other character denotes itself.  (A lone trailing backslash, a syntax
error in JS, is kept as-is; it never occurs in escaper output.) -/
def jsLiteralDecode : List Char → List Char
  | [] => []
  | [c] => [c]
  | c :: d :: rest =>
    if c = '\\' then unescTable d :: jsLiteralDecode rest
    else c :: jsLiteralDecode (d :: rest)

theorem jsLiteralDecode_cons_ne (x : Char) (t : List Char) (h : x ≠ '\\') :
    jsLiteralDecode (x :: t) = x :: jsLiteralDecode t := by
  cases t with
  | nil => simp [jsLiteralDecode]
  | cons y t2 => simp [jsLiteralDecode, h]

theorem jsLiteralDecode_escapeList (s : List Char) :
    jsLiteralDecode (escapeList s) = s := by
  induction s with
  | nil => rfl
  | cons x xs ih =>
    show jsLiteralDecode (escChar x ++ escapeList xs) = x :: xs
    by_cases h1 : x = '\\'
    · subst h1; simp [escChar, jsLiteralDecode, unescTable, ih]
    · by_cases h2 : x = '"'
      · subst h2; simp [escChar, jsLiteralDecode, unescTable, ih]
      · by_cases h3 : x = '\n'
        · subst h3; simp [escChar, jsLiteralDecode, unescTable, ih]
        · by_cases h4 : x = '\r'
          · subst h4; simp [escChar, jsLiteralDecode, unescTable, ih]
          · by_cases h5 : x = '\t'
            · subst h5; simp [escChar, jsLiteralDecode, unescTable, ih]
            · have he : escChar x = [x] := by
                simp [escChar, h1, h2, h3, h4, h5]
              rw [he, List.singleton_append, jsLiteralDecode_cons_ne x _ h1, ih]

/-- Claim C1: escaping followed by evaluation of the resulting
double-quoted JavaScript string literal is the identity on all
strings. -/
theorem escapeForJXA_roundtrip (s : List Char) :
    jsLiteralDecode (escapeForJXA s) = s := by
  rw [escapeForJXA_eq_escapeList]
  exact jsLiteralDecode_escapeList s

/-- Claim C2: the five substitutions are applied in source order
(backslash first), so every input character is escaped independently
and exactly once — no escape sequence introduced by a later
substitution is ever re-escaped — and the two quoted examples hold. -/
theorem escapeForJXA_order_no_reescape :
    (∀ s : List Char, escapeForJXA s = escapeList s) ∧
    escapeForJXA (("path\\to\\file").data) = ("path\\\\to\\\\file").data ∧
    escapeForJXA (("say \"hello\"").data) = ("say \\\"hello\\\"").data ∧
    escapeForJXA (("John said \"Hello\\World\"\nNew line").data) =
      ("John said \\\"Hello\\\\World\\\"\\nNew line").data := by
  refine ⟨escapeForJXA_eq_escapeList, ?_, ?_, ?_⟩ <;> decide

theorem escapeList_idOn : ∀ s : List Char,
    (∀ c ∈ s, c ≠ '\\' ∧ c ≠ '"' ∧ c ≠ '\n' ∧ c ≠ '\r' ∧ c ≠ '\t') →
    escapeList s = s
  | [], _ => rfl
  | x :: xs, h => by
    have hx := h x (List.mem_cons_self x xs)
    have he : escChar x = [x] := by
      simp [escChar, hx.1, hx.2.1, hx.2.2.1, hx.2.2.2.1, hx.2.2.2.2]
    have ih := escapeList_idOn xs (fun c hc => h c (List.mem_cons_of_mem x hc))
    show escChar x ++ escapeList xs = x :: xs
    rw [he, ih]
    rfl

/-- Claim C8: `escapeForJXA` is the identity on every string that
contains none of backslash, double quote, newline, carriage return or
tab; in particular the empty string maps to the empty string, single
quotes are untouched, and non-ASCII characters pass through. -/
theorem escapeForJXA_identity_on_plain (s : List Char)
    (h : ∀ c ∈ s, c ≠ '\\' ∧ c ≠ '"' ∧ c ≠ '\n' ∧ c ≠ '\r' ∧ c ≠ '\t') :
    escapeForJXA s = s := by
  rw [escapeForJXA_eq_escapeList]
  exact escapeList_idOn s h

/-- Witness for C8 at a concrete input holding a single quote and
non-ASCII characters. -/
theorem escapeForJXA_identity_on_plain_witness :
    escapeForJXA (("its fine — café ünïcødé 42").data ++ [squote]) =
      ("its fine — café ünïcødé 42").data ++ [squote] :=
  escapeForJXA_identity_on_plain (("its fine — café ünïcødé 42").data ++ [squote])
    (by decide)

/-- `DEFAULT_TIMEOUT_MS` from src/utils/jxa.ts line 35. -/
def DEFAULT_TIMEOUT_MS : Nat := 30000

/-- `JXAResult` from src/utils/jxa.ts lines 22-26: `success`,
`output`, and the optional `error` field. -/
structure JXAResult where
  success : Bool
  output : List Char
  error : Option (List Char)
  deriving DecidableEq

/-- `JXAOptions` from src/utils/jxa.ts lines 31-33: the optional
`timeoutMs`. -/
structure JXAOptions where
  timeoutMs : Option Nat
  deriving DecidableEq

/-- A value thrown by the process facility: either a JavaScript
`Error` carrying a message and the `killed` / `signal` fields set by
`execSync`, or any non-Error value (which carries no message). -/
inductive Thrown where
  | jsError (message : List Char) (killed : Bool) (signal : Option (List Char))
  | nonError
  deriving DecidableEq

/-- Outcome of one call of the process facility: the captured stdout,
or a thrown value. -/
inductive ExecOutcome where
  | ok (stdout : List Char)
  | raise (thrown : Thrown)
  deriving DecidableEq

/-- `isTimeoutError` from src/utils/jxa.ts lines 61-67: an `Error`
whose `killed` flag is true or whose `signal` is `SIGTERM`; any
non-Error value is not a timeout. -/
def isTimeoutError : Thrown → Bool
  | Thrown.jsError _ killed signal =>
      killed || decide (signal = some (("SIGTERM").data))
  | Thrown.nonError => false

/-- Characters matched by `.` in a JavaScript regular expression
without flags: everything except the four LineTerminator code
points. -/
def regexDotOk (c : Char) : Bool :=
  !(c == '\n' || c == '\r' || c == Char.ofNat 0x2028 || c == Char.ofNat 0x2029)

/-- Model of `message.match(/Error: (.+)/)` (src/utils/jxa.ts line
121), returning the first capture: scan left to right for an
occurrence of `Error: ` followed by at least one non-LineTerminator
character; the capture is the maximal run of such characters after
it.  Positions where the occurrence is followed by no such character
do not match, and scanning continues. -/
def findErrorMatch : List Char → Option (List Char)
  | [] => none
  | c :: rest =>
    if List.isPrefixOf (("Error: ").data) (c :: rest) then
      let cap := List.takeWhile regexDotOk (List.drop 7 (c :: rest))
      if cap = [] then findErrorMatch rest else some cap
    else findErrorMatch rest

/-- The shell command built by `executeJXA` (src/utils/jxa.ts lines
99-100): the trimmed script, with every single quote replaced by the
four characters quote-backslash-quote-quote, wrapped in single quotes
after `osascript -l JavaScript -e `. -/
def jxaCommand (script : List Char) : List Char :=
  ("osascript -l JavaScript -e ").data ++ [squote] ++
    replaceCharAll squote [squote, '\\', squote, squote] (trimList script) ++
    [squote]

/-- `executeJXA` from src/utils/jxa.ts lines 86-133, parameterized by
the process facility `exec` (the model of `execSync`, taking the
command string and the timeout).  Besides the `JXAResult`, the model
returns the list of invocations made of the facility. -/
def executeJXA (exec : List Char → Nat → ExecOutcome) (script : List Char)
    (options : JXAOptions) : JXAResult × List (List Char × Nat) :=
  let timeoutMs := options.timeoutMs.getD DEFAULT_TIMEOUT_MS
  if script = [] ∨ trimList script = [] then
    (⟨false, [], some (("Cannot execute empty JXA script").data)⟩, [])
  else
    let command := jxaCommand script
    match exec command timeoutMs with
    | ExecOutcome.ok output => (⟨true, trimList output, none⟩, [(command, timeoutMs)])
    | ExecOutcome.raise err =>
      let errorMessage :=
        if isTimeoutError err then
          ("Operation timed out after ").data ++
            (Nat.repr ((timeoutMs + 500) / 1000)).data ++ (" seconds").data
        else
          match err with
          | Thrown.jsError msg _ _ => (findErrorMatch msg).getD msg
          | Thrown.nonError => ("JXA execution failed with unknown error").data
      (⟨false, [], some errorMessage⟩, [(command, timeoutMs)])

/-- `buildNotesJXA` from src/utils/jxa.ts lines 141-147: the template
literal binding the Notes application, enabling standard additions,
then inlining the fragment. -/
def buildNotesJXA (code : List Char) : List Char :=
  ("\n    const Notes = Application(\"Notes\");\n    Notes.includeStandardAdditions = true;\n    ").data
    ++ code ++ ("\n  ").data

theorem dropWhile_eq_nil_of_all (p : Char → Bool) :
    ∀ s : List Char, (∀ c ∈ s, p c = true) → s.dropWhile p = []
  | [], _ => rfl
  | x :: xs, h => by
    have hx : p x = true := h x (List.mem_cons_self x xs)
    have ih := dropWhile_eq_nil_of_all p xs (fun c hc => h c (List.mem_cons_of_mem x hc))
    simp [List.dropWhile, hx, ih]

theorem trimList_eq_nil_of_ws (s : List Char)
    (h : ∀ c ∈ s, isJSWhitespace c = true) : trimList s = [] := by
  unfold trimList
  rw [dropWhile_eq_nil_of_all isJSWhitespace s h]
  rfl

/-- Claim C3: on an empty or all-whitespace script, `executeJXA`
fails immediately with the empty-script error and the process
facility is never invoked (the invocation list is empty). -/
theorem executeJXA_empty_script (exec : List Char → Nat → ExecOutcome)
    (script : List Char) (options : JXAOptions)
    (h : ∀ c ∈ script, isJSWhitespace c = true) :
    executeJXA exec script options =
      (⟨false, [], some (("Cannot execute empty JXA script").data)⟩, []) := by
  have ht : script = [] ∨ trimList script = [] :=
    Or.inr (trimList_eq_nil_of_ws script h)
  simp [executeJXA, ht]

/-- A facility that is never expected to be consulted. -/
def execNever : List Char → Nat → ExecOutcome := fun _ _ => ExecOutcome.ok []

/-- Witness for C3 at the all-whitespace script of three spaces. -/
theorem executeJXA_empty_script_witness :
    executeJXA execNever (("   ").data) ⟨none⟩ =
      (⟨false, [], some (("Cannot execute empty JXA script").data)⟩, []) :=
  executeJXA_empty_script execNever (("   ").data) ⟨none⟩ (by decide)

theorem script_nonempty_of_trim (script : List Char)
    (hs : trimList script ≠ []) : ¬(script = [] ∨ trimList script = []) := by
  rintro (h | h)
  · apply hs
    rw [h]
    rfl
  · exact hs h

/-- Claim C4: when the facility raises a thrown value whose `killed`
flag is true or whose signal is `SIGTERM`, `executeJXA` fails with
the timed-out message carrying the configured timeout (default 30000
milliseconds) converted to whole seconds. -/
theorem executeJXA_timeout_message (exec : List Char → Nat → ExecOutcome)
    (script : List Char) (options : JXAOptions) (t : Thrown)
    (hs : trimList script ≠ [])
    (hx : exec (jxaCommand script) (options.timeoutMs.getD DEFAULT_TIMEOUT_MS) =
      ExecOutcome.raise t)
    (hto : isTimeoutError t = true) :
    (executeJXA exec script options).1 =
      ⟨false, [], some (("Operation timed out after ").data ++
        (Nat.repr ((options.timeoutMs.getD DEFAULT_TIMEOUT_MS + 500) / 1000)).data ++
        (" seconds").data)⟩ := by
  have hs0 := script_nonempty_of_trim script hs
  simp [executeJXA, hs0, hx, hto]

/-- A facility that always raises a killed (timed-out) process
error. -/
def execTimeout : List Char → Nat → ExecOutcome :=
  fun _ _ => ExecOutcome.raise (Thrown.jsError [] true none)

/-- Witness for C4: with `timeoutMs` 5000 the message mentions a
5-second timeout. -/
theorem executeJXA_timeout_message_witness :
    (executeJXA execTimeout (("x").data) ⟨some 5000⟩).1 =
      ⟨false, [], some (("Operation timed out after 5 seconds").data)⟩ :=
  (executeJXA_timeout_message execTimeout (("x").data) ⟨some 5000⟩
    (Thrown.jsError [] true none) (by decide) rfl rfl).trans (by decide)

theorem takeWhile_eq_self_of_all (p : Char → Bool) :
    ∀ s : List Char, (∀ c ∈ s, p c = true) → s.takeWhile p = s
  | [], _ => rfl
  | x :: xs, h => by
    have hx : p x = true := h x (List.mem_cons_self x xs)
    have ih := takeWhile_eq_self_of_all p xs (fun c hc => h c (List.mem_cons_of_mem x hc))
    simp [List.takeWhile, hx, ih]

theorem findErrorMatch_front (d : List Char) (hd : d ≠ [])
    (hall : ∀ c ∈ d, regexDotOk c = true) :
    findErrorMatch ('E' :: 'r' :: 'r' :: 'o' :: 'r' :: ':' :: ' ' :: d) = some d := by
  simp [findErrorMatch, List.isPrefixOf,
    takeWhile_eq_self_of_all regexDotOk d hall, hd]

/-- Claim C5 (amended): on a non-timeout thrown value, the reported
error is the first regex capture of `Error: (.+)` in the message — in
particular, `<details>` itself whenever the message is exactly
`Error: <details>` with `<details>` nonempty and free of line
terminators; the raw message verbatim when the pattern does not
match; and the generic unknown-error text when the thrown value is
not an Error and carries no message. -/
theorem executeJXA_error_extraction (exec : List Char → Nat → ExecOutcome)
    (script : List Char) (options : JXAOptions) (t : Thrown)
    (hs : trimList script ≠ [])
    (hx : exec (jxaCommand script) (options.timeoutMs.getD DEFAULT_TIMEOUT_MS) =
      ExecOutcome.raise t)
    (hto : isTimeoutError t = false) :
    (∀ msg killed signal, t = Thrown.jsError msg killed signal →
      (executeJXA exec script options).1 =
        ⟨false, [], some ((findErrorMatch msg).getD msg)⟩ ∧
      (∀ d : List Char, msg = (("Error: ").data) ++ d → d ≠ [] →
        (∀ c ∈ d, regexDotOk c = true) →
        (executeJXA exec script options).1.error = some d) ∧
      (findErrorMatch msg = none →
        (executeJXA exec script options).1.error = some msg)) ∧
    (t = Thrown.nonError →
      (executeJXA exec script options).1.error =
        some (("JXA execution failed with unknown error").data)) := by
  have hs0 := script_nonempty_of_trim script hs
  constructor
  · rintro msg killed signal rfl
    have hmain : (executeJXA exec script options).1 =
        ⟨false, [], some ((findErrorMatch msg).getD msg)⟩ := by
      simp [executeJXA, hs0, hx, hto]
    refine ⟨hmain, ?_, ?_⟩
    · rintro d rfl hd hall
      rw [hmain]
      simp [findErrorMatch_front d hd hall]
    · intro hnone
      rw [hmain]
      simp [hnone]
  · rintro rfl
    simp [executeJXA, hs0, hx, isTimeoutError]

/-- A facility that raises an interpreter error with a one-line
`Error: `-prefixed message. -/
def execErrNote : List Char → Nat → ExecOutcome :=
  fun _ _ => ExecOutcome.raise
    (Thrown.jsError (("Error: Cannot find note").data) false none)

/-- Witness for C5: the message `Error: Cannot find note` is reported
as `Cannot find note`. -/
theorem executeJXA_error_extraction_witness :
    (executeJXA execErrNote (("x").data) ⟨none⟩).1.error =
      some (("Cannot find note").data) :=
  ((executeJXA_error_extraction execErrNote (("x").data) ⟨none⟩
      (Thrown.jsError (("Error: Cannot find note").data) false none)
      (by decide) rfl rfl).1
    (("Error: Cannot find note").data) false none rfl).2.1
    (("Cannot find note").data) rfl (by decide) (by decide)

/-- A facility that raises an error whose `Error: ` details span two
lines. -/
def execErrMulti : List Char → Nat → ExecOutcome :=
  fun _ _ => ExecOutcome.raise (Thrown.jsError (("Error: a\nb").data) false none)

/-- Counterexample to C5 as stated: the message `Error: a\nb` is of
the form `Error: <details>` with `<details>` equal to `a\nb`, yet the
reported error is only `a` — the capture of `(.+)` stops at the line
terminator, so multi-line details are not reported in full. -/
theorem executeJXA_error_extraction_counterexample :
    ((("Error: a\nb").data = (("Error: ").data) ++ (("a\nb").data)) ∧
     (executeJXA execErrMulti (("x").data) ⟨none⟩).1.error = some (("a").data)) ∧
    (executeJXA execErrMulti (("x").data) ⟨none⟩).1.error ≠ some (("a\nb").data) := by
  constructor
  · constructor
    · rfl
    · decide
  · decide

/-- Claim C6: on normal completion of the facility, `executeJXA`
succeeds with the stdout trimmed, invoking the facility exactly once
with the command that selects the JavaScript dialect (`-l
JavaScript`) and embeds the trimmed script, its single quotes
replaced by quote-backslash-quote-quote, inside a single-quoted
argument. -/
theorem executeJXA_success_output (exec : List Char → Nat → ExecOutcome)
    (script : List Char) (options : JXAOptions) (out : List Char)
    (hs : trimList script ≠ [])
    (hx : exec (jxaCommand script) (options.timeoutMs.getD DEFAULT_TIMEOUT_MS) =
      ExecOutcome.ok out) :
    executeJXA exec script options =
      (⟨true, trimList out, none⟩,
        [(jxaCommand script, options.timeoutMs.getD DEFAULT_TIMEOUT_MS)]) ∧
    jxaCommand script =
      ("osascript -l JavaScript -e ").data ++ [squote] ++
        replaceCharAll squote [squote, '\\', squote, squote] (trimList script) ++
        [squote] ∧
    (∃ u v : List Char, jxaCommand script = u ++ (("-l JavaScript").data) ++ v) := by
  have hs0 := script_nonempty_of_trim script hs
  refine ⟨?_, rfl, ?_⟩
  · simp [executeJXA, hs0, hx]
  · refine ⟨("osascript ").data,
      (" -e ").data ++ [squote] ++
        replaceCharAll squote [squote, '\\', squote, squote] (trimList script) ++
        [squote], ?_⟩
    simp [jxaCommand, List.append_assoc]

/-- A facility that completes normally with the text `test output`
followed by a newline. -/
def execOkOut : List Char → Nat → ExecOutcome :=
  fun _ _ => ExecOutcome.ok (("test output\n").data)

/-- Witness for C6: trailing whitespace of the captured output is
trimmed and the facility received the built command once. -/
theorem executeJXA_success_output_witness :
    executeJXA execOkOut (("1+1").data) ⟨none⟩ =
      (⟨true, ("test output").data, none⟩,
        [(jxaCommand (("1+1").data), DEFAULT_TIMEOUT_MS)]) :=
  ((executeJXA_success_output execOkOut (("1+1").data) ⟨none⟩
    (("test output\n").data) (by decide) rfl).1).trans (by decide)

/-- Claim C7: `executeJXA` always returns a structured result: either
success with no error field, or failure with an error message set —
no expected failure mode escapes as an exception (the model is a
total function). -/
theorem executeJXA_total_structured (exec : List Char → Nat → ExecOutcome)
    (script : List Char) (options : JXAOptions) :
    ((executeJXA exec script options).1.success = true ∧
      (executeJXA exec script options).1.error = none) ∨
    ((executeJXA exec script options).1.success = false ∧
      ∃ e, (executeJXA exec script options).1.error = some e) := by
  by_cases h : script = [] ∨ trimList script = []
  · right
    simp [executeJXA, h]
  · cases hx : exec (jxaCommand script) (options.timeoutMs.getD DEFAULT_TIMEOUT_MS) with
    | ok out =>
      left
      simp [executeJXA, h, hx]
    | raise err =>
      right
      simp [executeJXA, h, hx]

/-- Claim C10: shape invariant of every result: a failure has empty
output and an error set; a success has no error field; no result
carries both a non-empty output and an error. -/
theorem executeJXA_result_shape (exec : List Char → Nat → ExecOutcome)
    (script : List Char) (options : JXAOptions) :
    ((executeJXA exec script options).1.success = false →
      (executeJXA exec script options).1.output = [] ∧
      (executeJXA exec script options).1.error ≠ none) ∧
    ((executeJXA exec script options).1.success = true →
      (executeJXA exec script options).1.error = none) ∧
    ¬((executeJXA exec script options).1.output ≠ [] ∧
      (executeJXA exec script options).1.error ≠ none) := by
  by_cases h : script = [] ∨ trimList script = []
  · simp [executeJXA, h]
  · cases hx : exec (jxaCommand script) (options.timeoutMs.getD DEFAULT_TIMEOUT_MS) with
    | ok out => simp [executeJXA, h, hx]
    | raise err => simp [executeJXA, h, hx]

/-- Claim C9: `buildNotesJXA` yields, in order, the Notes application
binding, the standard-additions enable statement, and then the
fragment verbatim, unmodified and contiguous. -/
theorem buildNotesJXA_structure (code : List Char) :
    ∃ a b c : List Char,
      buildNotesJXA code =
        a ++ (("const Notes = Application(\"Notes\");").data) ++ b ++
          (("Notes.includeStandardAdditions = true;").data) ++ c ++ code ++
          (("\n  ").data) := by
  refine ⟨("\n    ").data, ("\n    ").data, ("\n    ").data, ?_⟩
  simp [buildNotesJXA, List.append_assoc]
